import Mathlib

/-!
Verification of the msgFilterRules parser/serializer core
(`msg_filter_parser.py`): the record model, the line-oriented
parser, the serializer, rule lookup, condition merge and rule creation.

Python strings are embedded as `List Char` (`Str`), so that the
splitting, stripping and substring operations of the source translate
to directly executable list functions.  Python `str.strip()` is
embedded over the ASCII whitespace characters, which are the only ones
the format ever produces.
-/

namespace MsgFilter

/-- Python strings, embedded as lists of characters. -/
abbrev Str := List Char

/-- The characters removed by Python `str.strip()` (ASCII whitespace). -/
def isPySpace (c : Char) : Bool :=
  c == ' ' || c == '\t' || c == '\n' || c == '\r' || c == '\x0b' || c == '\x0c'

/-- Strip every leading and trailing character satisfying `p`
(the semantics of Python `str.strip(chars)`). -/
def pyStripWith (p : Char → Bool) (l : Str) : Str :=
  ((l.dropWhile p).reverse.dropWhile p).reverse

/-- Python `line.strip()`. -/
def pyStrip (l : Str) : Str := pyStripWith isPySpace l

/-- Python `value.strip('"')`: removes ALL leading and trailing
double-quote characters. -/
def stripQuotes (l : Str) : Str := pyStripWith (fun c => c == '"') l

/-- Python `content.split(c)` for a one-character separator: splits at
every occurrence, keeping empty segments (`"".split(c) = [""]`). -/
def splitOnChar (c : Char) : Str → List Str
  | [] => [[]]
  | x :: xs =>
    let rest := splitOnChar c xs
    if x = c then [] :: rest
    else (x :: rest.headI) :: rest.tail

/-- Python `line.split('=', 1)` guarded by `'=' in line`: `none` when
the line has no `=`, otherwise the parts before and after the first `=`. -/
def splitFirstEq : Str → Option (Str × Str)
  | [] => none
  | c :: cs =>
    if c = '=' then some ([], cs)
    else
      match splitFirstEq cs with
      | none => none
      | some (a, b) => some (c :: a, b)

/-- Python substring containment `t in s`. -/
def isSubstr (t s : Str) : Bool := decide (t <:+: s)

/-- `class MsgFilterRule`: one Thunderbird message filter rule, six
string fields (`msg_filter_parser.py` lines 14-25). -/
structure MsgFilterRule where
  name : Str
  enabled : Str
  type : Str
  action : Str
  action_value : Str
  condition : Str
deriving DecidableEq, Repr

/-- `MsgFilterRule.__init__` applied with only `name`, all other
arguments at their defaults. -/
def mkRule (name : Str) : MsgFilterRule :=
  { name := name
    enabled := "yes".toList
    type := "17".toList
    action := "Move to folder".toList
    action_value := []
    condition := [] }

/-- One `<key>="<value>"` line, as emitted by `to_string`/`write_file`. -/
def kvLine (k v : Str) : Str := k ++ ('=' :: '"' :: (v ++ ['"']))

/-- Python `sep.join(ls)`. -/
def joinSep (sep : Str) : List Str → Str
  | [] => []
  | [l] => l
  | l :: ls => l ++ sep ++ joinSep sep ls

/-- `MsgFilterRule.to_string` (lines 27-37): the six lines in fixed
order, joined by newlines. -/
def to_string (r : MsgFilterRule) : Str :=
  joinSep ['\n']
    [ kvLine ("name".toList) r.name
    , kvLine ("enabled".toList) r.enabled
    , kvLine ("type".toList) r.type
    , kvLine ("action".toList) r.action
    , kvLine ("actionValue".toList) r.action_value
    , kvLine ("condition".toList) r.condition ]

/-- `class MsgFilterParser` after an edit session: the two global
scalars and the ordered rule list (`__init__`, lines 43-46, starts all
of them empty). -/
structure MsgFilterParser where
  version : Str
  logging : Str
  rules : List MsgFilterRule
deriving DecidableEq, Repr

/-- The state threaded through the `for line in lines` loop of
`parse_content`: the parser's scalars, `current_rule`, and the
accumulated `rules` list. -/
structure ParseState where
  version : Str
  logging : Str
  current : Option MsgFilterRule
  rules : List MsgFilterRule
deriving DecidableEq, Repr

/-- Lines 71-74 of `parse_content`: split the (already stripped) line
at the first `=`, trim the key, trim the value and strip its
surrounding quotes; `none` when the line has no `=`. -/
def parseLineKV (line : Str) : Option (Str × Str) :=
  match splitFirstEq line with
  | none => none
  | some (k0, v0) => some (pyStrip k0, stripQuotes (pyStrip v0))

/-- The `if`/`elif` chain of `parse_content` (lines 76-104): dispatch
a parsed key-value pair against the state.  `version`/`logging` set
the scalars, `name` closes the open rule and opens a new one, the five
field keys update the open rule and are dropped when no rule is open,
anything else is ignored. -/
def applyKV (st : ParseState) (key value : Str) : ParseState :=
  if key = "version".toList then { st with version := value }
      else if key = "logging".toList then { st with logging := value }
      else if key = "name".toList then
        { st with rules := st.rules ++ st.current.toList
                  current := some (mkRule value) }
      else
        match st.current with
        | none => st
        | some r =>
          if key = "enabled".toList then
            { st with current := some { r with enabled := value } }
          else if key = "type".toList then
            { st with current := some { r with type := value } }
          else if key = "action".toList then
            { st with current := some { r with action := value } }
          else if key = "actionValue".toList then
            { st with current := some { r with action_value := value } }
          else if key = "condition".toList then
            { st with current := some { r with condition := value } }
          else st

/-- The body of the `for line in lines` loop of `parse_content`
(lines 65-104): strip the line, skip it when empty or without `=`,
otherwise dispatch on the key. -/
def processLine (st : ParseState) (rawLine : Str) : ParseState :=
  let line := pyStrip rawLine
  if line = [] then st
  else
    match parseLineKV line with
    | none => st
    | some (key, value) => applyKV st key value

/-- The loop of `parse_content` run over a list of lines from the
initial state, followed by the final `if current_rule: rules.append`
(lines 62-111): yields the parser with the scalars and rules set. -/
def parseLines (ls : List Str) : MsgFilterParser :=
  let st := ls.foldl processLine ⟨[], [], none, []⟩
  ⟨st.version, st.logging, st.rules ++ st.current.toList⟩

/-- `MsgFilterParser.parse_content` (lines 57-113) on a fresh parser:
`content.strip().split('\n')`, then the line loop and the final
flush of `current_rule`. -/
def parse_content (content : Str) : MsgFilterParser :=
  parseLines (splitOnChar '\n' (pyStrip content))

/-- `MsgFilterParser.write_file` (lines 115-133) as the text written:
the `version` line only if non-empty, the `logging` line only if
non-empty, then each rule's `to_string` followed by a newline. -/
def write_file (p : MsgFilterParser) : Str :=
  (if p.version ≠ [] then kvLine ("version".toList) p.version ++ ['\n'] else []) ++
  (if p.logging ≠ [] then kvLine ("logging".toList) p.logging ++ ['\n'] else []) ++
  (p.rules.map (fun r => to_string r ++ ['\n'])).flatten

/-- `MsgFilterParser.find_rule_by_name` (lines 135-140): linear scan,
first rule whose name equals the query. -/
def find_rule_by_name (p : MsgFilterParser) (n : Str) : Option MsgFilterRule :=
  p.rules.find? (fun r => r.name == n)

/-- The candidate term `(field,contains,value)` built at lines 154,
157, 164 and 174. -/
def condTerm (f v : Str) : Str :=
  '(' :: (f ++ ",contains,".toList ++ v ++ [')'])

/-- Lines 151-164 of `add_condition_to_rule`: the new value of
`rule.condition` for a found rule.  Empty condition: start a fresh
`OR` clause; condition already containing the term: unchanged;
otherwise append ` OR ` and the term. -/
def addCondLogic (c f v : Str) : Str :=
  if c = [] then "OR ".toList ++ condTerm f v
  else if isSubstr (condTerm f v) c then c
  else c ++ " OR ".toList ++ condTerm f v

/-- The in-place mutation of the rule found by
`add_condition_to_rule`: update the first rule named `n` (the one
`find_rule_by_name` returns) with `addCondLogic`; the `Bool` is
whether a rule was found. -/
def addCondList (n f v : Str) : List MsgFilterRule → Bool × List MsgFilterRule
  | [] => (false, [])
  | r :: rs =>
    if r.name = n then
      (true, { r with condition := addCondLogic r.condition f v } :: rs)
    else
      ((addCondList n f v rs).1, r :: (addCondList n f v rs).2)

/-- `MsgFilterParser.add_condition_to_rule` (lines 142-167): look the
rule up by name, return `False` leaving everything unchanged when
absent, otherwise merge the condition into that rule and return
`True`. -/
def add_condition_to_rule (p : MsgFilterParser) (n f v : Str) :
    Bool × MsgFilterParser :=
  ((addCondList n f v p.rules).1,
   { p with rules := (addCondList n f v p.rules).2 })

/-- `MsgFilterParser.create_new_rule` (lines 169-187): build the rule
with the fixed `enabled`/`type`/`action` values, the given
`action_value` and a single-term `OR` condition, append it, return it. -/
def create_new_rule (p : MsgFilterParser) (name f v av : Str) :
    MsgFilterRule × MsgFilterParser :=
  let rule : MsgFilterRule :=
    { name := name
      enabled := "yes".toList
      type := "17".toList
      action := "Move to folder".toList
      action_value := av
      condition := "OR ".toList ++ condTerm f v }
  (rule, { p with rules := p.rules ++ [rule] })

/-! ### Spec-side definitions

These follow the words of the specification document, to be compared
with the definitions translated from the source. -/

/-- From the spec of `serialize()`: "exactly six lines, one per field,
in the fixed order name, enabled, type, action, actionValue,
condition, each formatted as key=value in quotes". -/
def specRuleLines (r : MsgFilterRule) : List Str :=
  [ kvLine ("name".toList) r.name
  , kvLine ("enabled".toList) r.enabled
  , kvLine ("type".toList) r.type
  , kvLine ("action".toList) r.action
  , kvLine ("actionValue".toList) r.action_value
  , kvLine ("condition".toList) r.condition ]

/-- From the spec of `write`: the version line only if non-empty, the
logging line only if non-empty, then each rule's six lines in sequence
order. -/
def specDocLines (p : MsgFilterParser) : List Str :=
  (if p.version ≠ [] then [kvLine ("version".toList) p.version] else []) ++
  (if p.logging ≠ [] then [kvLine ("logging".toList) p.logging] else []) ++
  (p.rules.map specRuleLines).flatten

/-- A flat list of lines laid out with a single newline after every
line: consecutive lines are separated by exactly one newline (no blank
line between rule blocks) and the last line carries a trailing
newline. -/
def linesText (ls : List Str) : Str := (ls.map (· ++ ['\n'])).flatten

/-- From the claim on value extraction: strip exactly one leading
double quote if present. -/
def dropLeadOneQuote : Str → Str
  | '"' :: t => t
  | l => l

/-- From the claim on value extraction: strip exactly one leading and
one trailing double quote, each only if present. -/
def specOneQuoteValue (v0 : Str) : Str :=
  (dropLeadOneQuote (dropLeadOneQuote (pyStrip v0)).reverse).reverse

/-- The values the round-trip property quantifies over: no embedded
double quote and no embedded newline. -/
def goodStr (s : Str) : Prop := '"' ∉ s ∧ '\n' ∉ s

/-- All six fields of a rule are round-trip-safe values. -/
def goodRule (r : MsgFilterRule) : Prop :=
  goodStr r.name ∧ goodStr r.enabled ∧ goodStr r.type ∧
  goodStr r.action ∧ goodStr r.action_value ∧ goodStr r.condition

/-- All values of a document are round-trip-safe. -/
def goodParser (p : MsgFilterParser) : Prop :=
  goodStr p.version ∧ goodStr p.logging ∧ ∀ r ∈ p.rules, goodRule r

instance (s : Str) : Decidable (goodStr s) := by unfold goodStr; infer_instance

instance (r : MsgFilterRule) : Decidable (goodRule r) := by unfold goodRule; infer_instance

instance (p : MsgFilterParser) : Decidable (goodParser p) := by unfold goodParser; infer_instance

/-! ### Lemmas on stripping and splitting -/

lemma dropWhile_eq_self_of_head (p : Char → Bool) (l : Str)
    (h : ∀ c, l.head? = some c → p c = false) : l.dropWhile p = l := by
  cases l with
  | nil => rfl
  | cons a t => rw [List.dropWhile_cons, h a rfl]; simp

lemma dropWhile_eq_self_of_forall (p : Char → Bool) (l : Str)
    (h : ∀ c ∈ l, p c = false) : l.dropWhile p = l := by
  apply dropWhile_eq_self_of_head
  intro c hc
  cases l with
  | nil => simp at hc
  | cons a t =>
    simp only [List.head?_cons, Option.some.injEq] at hc
    exact hc ▸ h a (List.mem_cons_self a t)

lemma pyStripWith_eq_self (p : Char → Bool) (l : Str)
    (h1 : ∀ c, l.head? = some c → p c = false)
    (h2 : ∀ c, l.getLast? = some c → p c = false) :
    pyStripWith p l = l := by
  unfold pyStripWith
  rw [dropWhile_eq_self_of_head p l h1]
  rw [dropWhile_eq_self_of_head p l.reverse
    (by intro c hc; rw [List.head?_reverse] at hc; exact h2 c hc)]
  exact List.reverse_reverse l

lemma stripQuotes_wrap (v : Str) (hv : '"' ∉ v) :
    stripQuotes ('"' :: (v ++ ['"'])) = v := by
  cases v with
  | nil => decide
  | cons a v' =>
    have ha : (a == '"') = false := by
      simp only [beq_eq_false_iff_ne, ne_eq]
      exact fun h => hv (h ▸ List.mem_cons_self a v')
    have hv' : ∀ c ∈ a :: v', (c == '"') = false := by
      intro c hc
      simp only [beq_eq_false_iff_ne, ne_eq]
      exact fun h => hv (h ▸ hc)
    unfold stripQuotes pyStripWith
    have h1 : List.dropWhile (fun c => c == '"') ('"' :: ((a :: v') ++ ['"']))
        = (a :: v') ++ ['"'] := by
      rw [List.dropWhile_cons]
      simp only [show (('"' : Char) == '"') = true from rfl, if_true]
      rw [List.cons_append, List.dropWhile_cons, ha]
      simp
    rw [h1]
    have h2 : ((a :: v') ++ ['"']).reverse = '"' :: (a :: v').reverse := by
      simp
    rw [h2, List.dropWhile_cons]
    simp only [show (('"' : Char) == '"') = true from rfl, if_true]
    rw [dropWhile_eq_self_of_forall _ _
      (fun c hc => hv' c (List.mem_reverse.mp hc))]
    simp

lemma splitFirstEq_append (k rest : Str) (hk : '=' ∉ k) :
    splitFirstEq (k ++ '=' :: rest) = some (k, rest) := by
  induction k with
  | nil => simp [splitFirstEq]
  | cons c cs ih =>
    have hc : ¬(c = '=') := fun h => hk (h ▸ List.mem_cons_self c cs)
    have hcs : '=' ∉ cs := fun h => hk (List.mem_cons_of_mem c h)
    rw [List.cons_append]
    unfold splitFirstEq
    rw [if_neg hc, ih hcs]

lemma splitFirstEq_eq_none (l : Str) (h : '=' ∉ l) : splitFirstEq l = none := by
  induction l with
  | nil => rfl
  | cons c cs ih =>
    have hc : ¬(c = '=') := fun hh => h (hh ▸ List.mem_cons_self c cs)
    unfold splitFirstEq
    rw [if_neg hc, ih (fun hh => h (List.mem_cons_of_mem c hh))]

lemma mem_of_mem_pyStripWith (p : Char → Bool) (l : Str) (c : Char)
    (hc : c ∈ pyStripWith p l) : c ∈ l := by
  unfold pyStripWith at hc
  rw [List.mem_reverse] at hc
  have h1 := (List.dropWhile_sublist (l := (l.dropWhile p).reverse) (p := p)).mem hc
  rw [List.mem_reverse] at h1
  exact (List.dropWhile_sublist (l := l) (p := p)).mem h1

lemma splitOnChar_cons (c x : Char) (xs : Str) :
    splitOnChar c (x :: xs) =
      if x = c then [] :: splitOnChar c xs
      else (x :: (splitOnChar c xs).headI) :: (splitOnChar c xs).tail := rfl

lemma splitOnChar_not_mem (c : Char) (l : Str) (h : c ∉ l) :
    splitOnChar c l = [l] := by
  induction l with
  | nil => rfl
  | cons x xs ih =>
    have hx : ¬(x = c) := fun hh => h (hh ▸ List.mem_cons_self x xs)
    rw [splitOnChar_cons, if_neg hx, ih (fun hh => h (List.mem_cons_of_mem x hh))]
    rfl

lemma splitOnChar_append (c : Char) (a t : Str) (h : c ∉ a) :
    splitOnChar c (a ++ c :: t) = a :: splitOnChar c t := by
  induction a with
  | nil =>
    rw [List.nil_append, splitOnChar_cons, if_pos rfl]
  | cons x xs ih =>
    have hx : ¬(x = c) := fun hh => h (hh ▸ List.mem_cons_self x xs)
    rw [List.cons_append, splitOnChar_cons, if_neg hx,
      ih (fun hh => h (List.mem_cons_of_mem x hh))]
    rfl

lemma joinSep_cons_cons (sep : Str) (a b : Str) (rest : List Str) :
    joinSep sep (a :: b :: rest) = a ++ sep ++ joinSep sep (b :: rest) := rfl

lemma splitOnChar_joinSep (c : Char) : ∀ ls : List Str, ls ≠ [] →
    (∀ l ∈ ls, c ∉ l) → splitOnChar c (joinSep [c] ls) = ls
  | [], h0, _ => absurd rfl h0
  | [a], _, h => by
    rw [show joinSep [c] [a] = a from rfl]
    exact splitOnChar_not_mem c a (h a (List.mem_singleton.mpr rfl))
  | a :: b :: rest, _, h => by
    rw [joinSep_cons_cons]
    have ha : c ∉ a := h a (List.mem_cons_self _ _)
    rw [show a ++ [c] ++ joinSep [c] (b :: rest)
        = a ++ c :: joinSep [c] (b :: rest) by simp]
    rw [splitOnChar_append c a _ ha]
    rw [splitOnChar_joinSep c (b :: rest) (by simp)
      (fun l hl => h l (List.mem_cons_of_mem a hl))]

/-! ### Lemmas on the line layout of serialized documents -/

lemma linesText_nil : linesText [] = [] := rfl

lemma linesText_cons (l : Str) (ls : List Str) :
    linesText (l :: ls) = l ++ '\n' :: linesText ls := by
  simp [linesText]

lemma linesText_append (xs ys : List Str) :
    linesText (xs ++ ys) = linesText xs ++ linesText ys := by
  simp [linesText]

lemma joinSep_append_sep : ∀ ls : List Str, ls ≠ [] →
    joinSep ['\n'] ls ++ ['\n'] = linesText ls
  | [], h0 => absurd rfl h0
  | [a], _ => by simp [joinSep, linesText]
  | a :: b :: rest, _ => by
    rw [joinSep_cons_cons, linesText_cons,
      ← joinSep_append_sep (b :: rest) (by simp)]
    simp

lemma joinSep_cons_head? (c : Char) (l : Str) (rest : List Str) (hl : l ≠ []) :
    (joinSep [c] (l :: rest)).head? = l.head? := by
  cases rest with
  | nil => rfl
  | cons b t =>
    rw [joinSep_cons_cons, List.append_assoc, List.head?_append]
    cases l with
    | nil => exact absurd rfl hl
    | cons x xs => rfl

lemma joinSep_getLast_quote (c : Char) : ∀ ls : List Str, ls ≠ [] →
    (∀ l ∈ ls, l.getLast? = some '"') → (joinSep [c] ls).getLast? = some '"'
  | [], h0, _ => absurd rfl h0
  | [a], _, h => h a (List.mem_singleton.mpr rfl)
  | a :: b :: rest, _, h => by
    rw [joinSep_cons_cons, List.getLast?_append,
      joinSep_getLast_quote c (b :: rest) (by simp)
        (fun l hl => h l (List.mem_cons_of_mem a hl))]
    rfl

lemma kvLine_eq_concat (k v : Str) :
    kvLine k v = (k ++ '=' :: '"' :: v) ++ ['"'] := by
  simp [kvLine]

lemma kvLine_getLast? (k v : Str) : (kvLine k v).getLast? = some '"' := by
  rw [kvLine_eq_concat, List.getLast?_concat]

lemma kvLine_ne_nil (k v : Str) : kvLine k v ≠ [] := by
  rw [kvLine_eq_concat]
  intro h
  exact absurd (List.append_eq_nil.mp h).2 (by simp)

lemma kvLine_head_nonspace (k v : Str)
    (hk : ∀ ch, k.head? = some ch → isPySpace ch = false) :
    ∀ ch, (kvLine k v).head? = some ch → isPySpace ch = false := by
  intro ch hch
  cases k with
  | nil =>
    rw [show kvLine [] v = '=' :: '"' :: (v ++ ['"']) from rfl] at hch
    simp only [List.head?_cons, Option.some.injEq] at hch
    rw [← hch]
    decide
  | cons x xs =>
    rw [show kvLine (x :: xs) v = x :: (xs ++ ('=' :: '"' :: (v ++ ['"']))) from rfl] at hch
    simp only [List.head?_cons, Option.some.injEq] at hch
    exact hk ch (by rw [List.head?_cons, hch])

lemma newline_not_mem_kvLine (k v : Str) (hk : '\n' ∉ k) (hv : '\n' ∉ v) :
    '\n' ∉ kvLine k v := by
  intro h
  rw [kvLine_eq_concat] at h
  rcases List.mem_append.mp h with h1 | h1
  · rcases List.mem_append.mp h1 with h2 | h2
    · exact hk h2
    · rcases List.mem_cons.mp h2 with h3 | h3
      · exact absurd h3 (by decide)
      · rcases List.mem_cons.mp h3 with h4 | h4
        · exact absurd h4 (by decide)
        · exact hv h4
  · exact absurd (List.mem_singleton.mp h1) (by decide)

/-! ### Line-level behavior of the parser -/

lemma parseLineKV_kvLine (k v : Str) (hk : '=' ∉ k) (hv : '"' ∉ v) :
    parseLineKV (kvLine k v) = some (pyStrip k, v) := by
  unfold parseLineKV kvLine
  rw [splitFirstEq_append k ('"' :: (v ++ ['"'])) hk]
  have h1 : pyStrip ('"' :: (v ++ ['"'])) = '"' :: (v ++ ['"']) := by
    apply pyStripWith_eq_self
    · intro c hc
      simp only [List.head?_cons, Option.some.injEq] at hc
      rw [← hc]
      decide
    · intro c hc
      rw [show ('"' :: (v ++ ['"']) : Str) = ('"' :: v) ++ ['"'] by simp,
        List.getLast?_concat] at hc
      cases hc
      decide
  show some (pyStrip k, stripQuotes (pyStrip ('"' :: (v ++ ['"'])))) = some (pyStrip k, v)
  rw [h1, stripQuotes_wrap v hv]

lemma pyStrip_kvLine (k v : Str)
    (hk : ∀ ch, k.head? = some ch → isPySpace ch = false) :
    pyStrip (kvLine k v) = kvLine k v := by
  apply pyStripWith_eq_self
  · exact kvLine_head_nonspace k v hk
  · intro c hc
    rw [kvLine_getLast? k v] at hc
    cases hc
    decide

lemma processLine_kvLine (st : ParseState) (k v : Str)
    (hk : '=' ∉ k)
    (hkh : ∀ ch, k.head? = some ch → isPySpace ch = false)
    (hv : '"' ∉ v) :
    processLine st (kvLine k v) = applyKV st (pyStrip k) v := by
  unfold processLine
  rw [pyStrip_kvLine k v hkh]
  rw [if_neg (kvLine_ne_nil k v)]
  rw [parseLineKV_kvLine k v hk hv]

lemma head_cond_of_all (p : Char → Bool) (k : Str)
    (h : (k.head?.all fun c => !p c) = true) :
    ∀ c, k.head? = some c → p c = false := by
  intro c hc
  rw [hc] at h
  simpa using h

lemma applyKV_version (st : ParseState) (v : Str) :
    applyKV st ("version".toList) v = { st with version := v } := by
  unfold applyKV
  rw [if_pos rfl]

lemma applyKV_logging (st : ParseState) (v : Str) :
    applyKV st ("logging".toList) v = { st with logging := v } := by
  unfold applyKV
  rw [if_neg (by decide), if_pos rfl]

lemma applyKV_name (st : ParseState) (v : Str) :
    applyKV st ("name".toList) v =
      { st with rules := st.rules ++ st.current.toList
                current := some (mkRule v) } := by
  unfold applyKV
  rw [if_neg (by decide), if_neg (by decide), if_pos rfl]

lemma applyKV_enabled (st : ParseState) (r : MsgFilterRule) (v : Str)
    (h : st.current = some r) :
    applyKV st ("enabled".toList) v
      = { st with current := some { r with enabled := v } } := by
  obtain ⟨ver, log, cur, rls⟩ := st
  cases h
  rfl

lemma applyKV_type (st : ParseState) (r : MsgFilterRule) (v : Str)
    (h : st.current = some r) :
    applyKV st ("type".toList) v
      = { st with current := some { r with type := v } } := by
  obtain ⟨ver, log, cur, rls⟩ := st
  cases h
  rfl

lemma applyKV_action (st : ParseState) (r : MsgFilterRule) (v : Str)
    (h : st.current = some r) :
    applyKV st ("action".toList) v
      = { st with current := some { r with action := v } } := by
  obtain ⟨ver, log, cur, rls⟩ := st
  cases h
  rfl

lemma applyKV_actionValue (st : ParseState) (r : MsgFilterRule) (v : Str)
    (h : st.current = some r) :
    applyKV st ("actionValue".toList) v
      = { st with current := some { r with action_value := v } } := by
  obtain ⟨ver, log, cur, rls⟩ := st
  cases h
  rfl

lemma applyKV_condition (st : ParseState) (r : MsgFilterRule) (v : Str)
    (h : st.current = some r) :
    applyKV st ("condition".toList) v
      = { st with current := some { r with condition := v } } := by
  obtain ⟨ver, log, cur, rls⟩ := st
  cases h
  rfl

lemma processLine_version (st : ParseState) (v : Str) (hv : '"' ∉ v) :
    processLine st (kvLine ("version".toList) v) = { st with version := v } := by
  rw [processLine_kvLine st _ v (by decide) (head_cond_of_all _ _ (by decide)) hv,
    show pyStrip ("version".toList) = "version".toList from by decide, applyKV_version]

lemma processLine_logging (st : ParseState) (v : Str) (hv : '"' ∉ v) :
    processLine st (kvLine ("logging".toList) v) = { st with logging := v } := by
  rw [processLine_kvLine st _ v (by decide) (head_cond_of_all _ _ (by decide)) hv,
    show pyStrip ("logging".toList) = "logging".toList from by decide, applyKV_logging]

lemma processLine_name (st : ParseState) (v : Str) (hv : '"' ∉ v) :
    processLine st (kvLine ("name".toList) v)
      = { st with rules := st.rules ++ st.current.toList
                  current := some (mkRule v) } := by
  rw [processLine_kvLine st _ v (by decide) (head_cond_of_all _ _ (by decide)) hv,
    show pyStrip ("name".toList) = "name".toList from by decide, applyKV_name]

lemma processLine_enabled (st : ParseState) (r : MsgFilterRule) (v : Str)
    (h : st.current = some r) (hv : '"' ∉ v) :
    processLine st (kvLine ("enabled".toList) v)
      = { st with current := some { r with enabled := v } } := by
  rw [processLine_kvLine st _ v (by decide) (head_cond_of_all _ _ (by decide)) hv,
    show pyStrip ("enabled".toList) = "enabled".toList from by decide,
    applyKV_enabled st r v h]

lemma processLine_type (st : ParseState) (r : MsgFilterRule) (v : Str)
    (h : st.current = some r) (hv : '"' ∉ v) :
    processLine st (kvLine ("type".toList) v)
      = { st with current := some { r with type := v } } := by
  rw [processLine_kvLine st _ v (by decide) (head_cond_of_all _ _ (by decide)) hv,
    show pyStrip ("type".toList) = "type".toList from by decide,
    applyKV_type st r v h]

lemma processLine_action (st : ParseState) (r : MsgFilterRule) (v : Str)
    (h : st.current = some r) (hv : '"' ∉ v) :
    processLine st (kvLine ("action".toList) v)
      = { st with current := some { r with action := v } } := by
  rw [processLine_kvLine st _ v (by decide) (head_cond_of_all _ _ (by decide)) hv,
    show pyStrip ("action".toList) = "action".toList from by decide,
    applyKV_action st r v h]

lemma processLine_actionValue (st : ParseState) (r : MsgFilterRule) (v : Str)
    (h : st.current = some r) (hv : '"' ∉ v) :
    processLine st (kvLine ("actionValue".toList) v)
      = { st with current := some { r with action_value := v } } := by
  rw [processLine_kvLine st _ v (by decide) (head_cond_of_all _ _ (by decide)) hv,
    show pyStrip ("actionValue".toList) = "actionValue".toList from by decide,
    applyKV_actionValue st r v h]

lemma processLine_condition (st : ParseState) (r : MsgFilterRule) (v : Str)
    (h : st.current = some r) (hv : '"' ∉ v) :
    processLine st (kvLine ("condition".toList) v)
      = { st with current := some { r with condition := v } } := by
  rw [processLine_kvLine st _ v (by decide) (head_cond_of_all _ _ (by decide)) hv,
    show pyStrip ("condition".toList) = "condition".toList from by decide,
    applyKV_condition st r v h]

/-! ### The state machine over serialized rule blocks -/

lemma foldl_specRuleLines (st : ParseState) (r : MsgFilterRule) (hr : goodRule r) :
    (specRuleLines r).foldl processLine st
      = { st with current := some r
                  rules := st.rules ++ st.current.toList } := by
  obtain ⟨hn, he, ht, hac, hav, hc⟩ := hr
  show List.foldl processLine st
    [ kvLine ("name".toList) r.name
    , kvLine ("enabled".toList) r.enabled
    , kvLine ("type".toList) r.type
    , kvLine ("action".toList) r.action
    , kvLine ("actionValue".toList) r.action_value
    , kvLine ("condition".toList) r.condition ] = _
  rw [List.foldl_cons, processLine_name st r.name hn.1]
  rw [List.foldl_cons, processLine_enabled _ _ _ rfl he.1]
  rw [List.foldl_cons, processLine_type _ _ _ rfl ht.1]
  rw [List.foldl_cons, processLine_action _ _ _ rfl hac.1]
  rw [List.foldl_cons, processLine_actionValue _ _ _ rfl hav.1]
  rw [List.foldl_cons, processLine_condition _ _ _ rfl hc.1]
  rw [List.foldl_nil]
  cases r
  rfl

lemma foldl_blocks : ∀ (rs : List MsgFilterRule), (∀ r ∈ rs, goodRule r) →
    ∀ st : ParseState,
    ((((rs.map specRuleLines).flatten).foldl processLine st).version = st.version)
    ∧ ((((rs.map specRuleLines).flatten).foldl processLine st).logging = st.logging)
    ∧ ((((rs.map specRuleLines).flatten).foldl processLine st).rules
        ++ (((rs.map specRuleLines).flatten).foldl processLine st).current.toList
      = st.rules ++ st.current.toList ++ rs)
  | [], _, st => by simp
  | r :: rest, h, st => by
    have hr := h r (List.mem_cons_self r rest)
    have hrest := fun x hx => h x (List.mem_cons_of_mem r hx)
    rw [List.map_cons, List.flatten_cons, List.foldl_append]
    rw [foldl_specRuleLines st r hr]
    obtain ⟨h1, h2, h3⟩ := foldl_blocks rest hrest
      { st with current := some r, rules := st.rules ++ st.current.toList }
    refine ⟨h1, h2, ?_⟩
    rw [h3]
    simp

/-! ### Decomposing the serializer into lines -/

lemma to_string_newline (r : MsgFilterRule) :
    to_string r ++ ['\n'] = linesText (specRuleLines r) := by
  rw [show to_string r = joinSep ['\n'] (specRuleLines r) from rfl]
  exact joinSep_append_sep (specRuleLines r) (by simp [specRuleLines])

lemma write_file_eq_linesText (p : MsgFilterParser) :
    write_file p = linesText (specDocLines p) := by
  unfold write_file specDocLines
  rw [linesText_append, linesText_append]
  congr 1
  · congr 1
    · by_cases hv : p.version ≠ []
      · rw [if_pos hv, if_pos hv, linesText_cons, linesText_nil]
      · rw [if_neg hv, if_neg hv, linesText_nil]
    · by_cases hl : p.logging ≠ []
      · rw [if_pos hl, if_pos hl, linesText_cons, linesText_nil]
      · rw [if_neg hl, if_neg hl, linesText_nil]
  · induction p.rules with
    | nil => simp [linesText]
    | cons r rest ih =>
      rw [List.map_cons, List.map_cons, List.flatten_cons, List.flatten_cons,
        linesText_append, ih, to_string_newline]

lemma specDocLines_facts (p : MsgFilterParser) (hp : goodParser p) :
    ∀ l ∈ specDocLines p,
      l ≠ [] ∧ (∀ ch, l.head? = some ch → isPySpace ch = false)
      ∧ l.getLast? = some '"' ∧ '\n' ∉ l := by
  obtain ⟨hver, hlog, hrules⟩ := hp
  have main : ∀ (k v : Str), (k.head?.all fun c => !isPySpace c) = true →
      '\n' ∉ k → '\n' ∉ v →
      (kvLine k v ≠ [] ∧ (∀ ch, (kvLine k v).head? = some ch → isPySpace ch = false)
       ∧ (kvLine k v).getLast? = some '"' ∧ '\n' ∉ kvLine k v) :=
    fun k v hk hk2 hv =>
      ⟨kvLine_ne_nil k v, kvLine_head_nonspace k v (head_cond_of_all _ _ hk),
        kvLine_getLast? k v, newline_not_mem_kvLine k v hk2 hv⟩
  intro l hl
  unfold specDocLines at hl
  rcases List.mem_append.mp hl with h1 | h1
  · rcases List.mem_append.mp h1 with h2 | h2
    · by_cases hv : p.version ≠ []
      · rw [if_pos hv] at h2
        rw [List.mem_singleton.mp h2]
        exact main _ _ (by decide) (by decide) hver.2
      · rw [if_neg hv] at h2
        simp at h2
    · by_cases hv : p.logging ≠ []
      · rw [if_pos hv] at h2
        rw [List.mem_singleton.mp h2]
        exact main _ _ (by decide) (by decide) hlog.2
      · rw [if_neg hv] at h2
        simp at h2
  · rcases List.mem_flatten.mp h1 with ⟨ls, hls, hlls⟩
    rcases List.mem_map.mp hls with ⟨r, hr, rfl⟩
    obtain ⟨hn, he, ht, hac, hav, hc⟩ := hrules r hr
    unfold specRuleLines at hlls
    simp only [List.mem_cons, List.mem_singleton, List.not_mem_nil, or_false] at hlls
    rcases hlls with rfl | rfl | rfl | rfl | rfl | rfl
    · exact main _ _ (by decide) (by decide) hn.2
    · exact main _ _ (by decide) (by decide) he.2
    · exact main _ _ (by decide) (by decide) ht.2
    · exact main _ _ (by decide) (by decide) hac.2
    · exact main _ _ (by decide) (by decide) hav.2
    · exact main _ _ (by decide) (by decide) hc.2

lemma pyStrip_linesText (ls : List Str) (h0 : ls ≠ [])
    (hne : ∀ l ∈ ls, l ≠ [])
    (hh : ∀ l ∈ ls, ∀ ch, l.head? = some ch → isPySpace ch = false)
    (hq : ∀ l ∈ ls, l.getLast? = some '"') :
    pyStrip (linesText ls) = joinSep ['\n'] ls := by
  rw [← joinSep_append_sep ls h0]
  obtain ⟨l, rest, rfl⟩ : ∃ l rest, ls = l :: rest := by
    cases ls with
    | nil => exact absurd rfl h0
    | cons a b => exact ⟨a, b, rfl⟩
  obtain ⟨c0, l', rfl⟩ : ∃ c0 l', l = c0 :: l' := by
    cases l with
    | nil => exact absurd rfl (hne [] (List.mem_cons_self _ _))
    | cons a b => exact ⟨a, b, rfl⟩
  have hJhead : (joinSep ['\n'] ((c0 :: l') :: rest)).head? = some c0 := by
    rw [joinSep_cons_head? '\n' (c0 :: l') rest (by simp)]
    rfl
  have hJlast : (joinSep ['\n'] ((c0 :: l') :: rest)).getLast? = some '"' :=
    joinSep_getLast_quote '\n' ((c0 :: l') :: rest) h0 hq
  have hc0 : isPySpace c0 = false :=
    hh (c0 :: l') (List.mem_cons_self _ _) c0 rfl
  have d2 : (joinSep ['\n'] ((c0 :: l') :: rest) ++ ['\n']).reverse
      = '\n' :: (joinSep ['\n'] ((c0 :: l') :: rest)).reverse := by
    simp
  unfold pyStrip pyStripWith
  rw [dropWhile_eq_self_of_head isPySpace
    (joinSep ['\n'] ((c0 :: l') :: rest) ++ ['\n']) (by
    intro c hc
    rw [List.head?_append, hJhead] at hc
    rw [show (some c0).or (['\n'] : Str).head? = some c0 from rfl] at hc
    injection hc with hc
    rw [← hc]
    exact hc0)]
  rw [d2, List.dropWhile_cons]
  rw [if_pos (show isPySpace '\n' = true from by decide)]
  rw [dropWhile_eq_self_of_head isPySpace
    (joinSep ['\n'] ((c0 :: l') :: rest)).reverse (by
    intro c hc
    rw [List.head?_reverse, hJlast] at hc
    injection hc with hc
    rw [← hc]
    decide)]
  exact List.reverse_reverse _

/-! ### Round trip -/

lemma parseLines_specDocLines (p : MsgFilterParser) (hp : goodParser p) :
    parseLines (specDocLines p) = p := by
  obtain ⟨pv, pl, pr⟩ := p
  obtain ⟨hver, hlog, hrules⟩ := hp
  unfold parseLines specDocLines
  rw [List.foldl_append, List.foldl_append]
  have s1 : List.foldl processLine ⟨[], [], none, []⟩
      (if (⟨pv, pl, pr⟩ : MsgFilterParser).version ≠ [] then
        [kvLine ("version".toList) (⟨pv, pl, pr⟩ : MsgFilterParser).version] else [])
      = ⟨pv, [], none, []⟩ := by
    show List.foldl processLine ⟨[], [], none, []⟩
      (if pv ≠ [] then [kvLine ("version".toList) pv] else []) = ⟨pv, [], none, []⟩
    by_cases hv : pv ≠ []
    · rw [if_pos hv, List.foldl_cons, List.foldl_nil,
        processLine_version _ _ hver.1]
    · rw [if_neg hv, List.foldl_nil]
      push_neg at hv
      rw [hv]
  have s2 : List.foldl processLine ⟨pv, [], none, []⟩
      (if (⟨pv, pl, pr⟩ : MsgFilterParser).logging ≠ [] then
        [kvLine ("logging".toList) (⟨pv, pl, pr⟩ : MsgFilterParser).logging] else [])
      = ⟨pv, pl, none, []⟩ := by
    show List.foldl processLine ⟨pv, [], none, []⟩
      (if pl ≠ [] then [kvLine ("logging".toList) pl] else []) = ⟨pv, pl, none, []⟩
    by_cases hl : pl ≠ []
    · rw [if_pos hl, List.foldl_cons, List.foldl_nil,
        processLine_logging _ _ hlog.1]
    · rw [if_neg hl, List.foldl_nil]
      push_neg at hl
      rw [hl]
  rw [s1, s2]
  obtain ⟨h1, h2, h3⟩ := foldl_blocks pr hrules ⟨pv, pl, none, []⟩
  show (⟨_, _, _⟩ : MsgFilterParser) = ⟨pv, pl, pr⟩
  rw [MsgFilterParser.mk.injEq]
  refine ⟨h1, h2, ?_⟩
  rw [h3]
  simp

lemma parse_write_good (p : MsgFilterParser) (hp : goodParser p) :
    parse_content (write_file p) = p := by
  rw [write_file_eq_linesText]
  by_cases h0 : specDocLines p = []
  · rw [h0, show linesText [] = ([] : Str) from rfl]
    have hempty : parse_content [] = ⟨[], [], []⟩ := by decide
    rw [hempty]
    obtain ⟨pv, pl, pr⟩ := p
    unfold specDocLines at h0
    dsimp only at h0
    rcases List.append_eq_nil.mp h0 with ⟨h01, h02⟩
    rcases List.append_eq_nil.mp h01 with ⟨hA, hB⟩
    have hpv : pv = [] := by
      by_cases h : pv ≠ []
      · rw [if_pos h] at hA
        cases hA
      · push_neg at h
        exact h
    have hpl : pl = [] := by
      by_cases h : pl ≠ []
      · rw [if_pos h] at hB
        cases hB
      · push_neg at h
        exact h
    have hpr : pr = [] := by
      cases pr with
      | nil => rfl
      | cons r rest =>
        rw [List.map_cons, List.flatten_cons] at h02
        exact absurd (List.append_eq_nil.mp h02).1 (by simp [specRuleLines])
    rw [hpv, hpl, hpr]
  · have hfacts := specDocLines_facts p hp
    unfold parse_content
    rw [pyStrip_linesText (specDocLines p) h0
        (fun l hl => (hfacts l hl).1)
        (fun l hl => (hfacts l hl).2.1)
        (fun l hl => (hfacts l hl).2.2.1)]
    rw [splitOnChar_joinSep '\n' (specDocLines p) h0
        (fun l hl => (hfacts l hl).2.2.2)]
    exact parseLines_specDocLines p hp

/-! ### Lemmas on the condition merge and rule lookup -/

lemma condTerm_ne_nil (f v : Str) : condTerm f v ≠ [] := by
  simp [condTerm]

lemma isSubstr_suffix (t s : Str) : isSubstr t (s ++ t) = true := by
  unfold isSubstr
  exact decide_eq_true (List.suffix_append s t).isInfix

lemma addCondLogic_nil (f v : Str) :
    addCondLogic [] f v = "OR ".toList ++ condTerm f v := rfl

lemma addCondLogic_of_substr (c f v : Str)
    (h : isSubstr (condTerm f v) c = true) : addCondLogic c f v = c := by
  have hc : c ≠ [] := by
    intro h0
    rw [h0] at h
    unfold isSubstr at h
    exact condTerm_ne_nil f v (List.infix_nil.mp (of_decide_eq_true h))
  unfold addCondLogic
  rw [if_neg hc, if_pos h]

lemma addCondLogic_not_contained (c f v : Str) (hc : c ≠ [])
    (h : isSubstr (condTerm f v) c = false) :
    addCondLogic c f v = c ++ " OR ".toList ++ condTerm f v := by
  unfold addCondLogic
  rw [if_neg hc, if_neg (by rw [h]; exact Bool.false_ne_true)]

lemma addCondLogic_substr_result (c f v : Str) :
    isSubstr (condTerm f v) (addCondLogic c f v) = true := by
  unfold addCondLogic
  by_cases h1 : c = []
  · rw [if_pos h1]
    exact isSubstr_suffix _ _
  · rw [if_neg h1]
    by_cases h2 : isSubstr (condTerm f v) c = true
    · rw [if_pos h2]
      exact h2
    · rw [if_neg h2]
      exact isSubstr_suffix _ _

lemma addCondLogic_idem (c f v : Str) :
    addCondLogic (addCondLogic c f v) f v = addCondLogic c f v :=
  addCondLogic_of_substr _ f v (addCondLogic_substr_result c f v)

lemma addCondList_cons_pos (n f v : Str) (r : MsgFilterRule)
    (rs : List MsgFilterRule) (h : r.name = n) :
    addCondList n f v (r :: rs)
      = (true, { r with condition := addCondLogic r.condition f v } :: rs) := by
  unfold addCondList
  rw [if_pos h]

lemma addCondList_cons_neg (n f v : Str) (r : MsgFilterRule)
    (rs : List MsgFilterRule) (h : ¬(r.name = n)) :
    addCondList n f v (r :: rs)
      = ((addCondList n f v rs).1, r :: (addCondList n f v rs).2) := by
  simp only [addCondList]
  rw [if_neg h]

lemma addCondList_not_found (n f v : Str) : ∀ l : List MsgFilterRule,
    (∀ r ∈ l, r.name ≠ n) → addCondList n f v l = (false, l)
  | [], _ => rfl
  | r :: rs, h => by
    rw [addCondList_cons_neg n f v r rs (h r (List.mem_cons_self r rs))]
    rw [addCondList_not_found n f v rs
      (fun x hx => h x (List.mem_cons_of_mem r hx))]

lemma addCondList_found (n f v : Str) :
    ∀ (pre : List MsgFilterRule) (r : MsgFilterRule) (post : List MsgFilterRule),
    (∀ x ∈ pre, x.name ≠ n) → r.name = n →
    addCondList n f v (pre ++ r :: post)
      = (true, pre ++ { r with condition := addCondLogic r.condition f v } :: post)
  | [], r, post, _, hr => by
    rw [List.nil_append, addCondList_cons_pos n f v r post hr, List.nil_append]
  | x :: pre, r, post, h, hr => by
    rw [List.cons_append,
      addCondList_cons_neg n f v x _ (h x (List.mem_cons_self x pre)),
      addCondList_found n f v pre r post
        (fun y hy => h y (List.mem_cons_of_mem x hy)) hr,
      List.cons_append]

lemma addCondList_idem (n f v : Str) : ∀ l : List MsgFilterRule,
    addCondList n f v (addCondList n f v l).2 = addCondList n f v l
  | [] => rfl
  | r :: rs => by
    by_cases h : r.name = n
    · rw [addCondList_cons_pos n f v r rs h]
      show addCondList n f v
        ({ r with condition := addCondLogic r.condition f v } :: rs) = _
      rw [addCondList_cons_pos n f v _ rs
        (show ({ r with condition := addCondLogic r.condition f v }
          : MsgFilterRule).name = n from h)]
      dsimp only
      rw [addCondLogic_idem]
    · rw [addCondList_cons_neg n f v r rs h]
      show addCondList n f v (r :: (addCondList n f v rs).2) = _
      rw [addCondList_cons_neg n f v r _ h, addCondList_idem n f v rs]

lemma add_condition_idem (p : MsgFilterParser) (n f v : Str) :
    add_condition_to_rule (add_condition_to_rule p n f v).2 n f v
      = add_condition_to_rule p n f v := by
  unfold add_condition_to_rule
  dsimp only
  rw [addCondList_idem]

lemma add_condition_not_found (p : MsgFilterParser) (n f v : Str)
    (h : ∀ r ∈ p.rules, r.name ≠ n) :
    add_condition_to_rule p n f v = (false, p) := by
  unfold add_condition_to_rule
  rw [addCondList_not_found n f v p.rules h]

lemma add_condition_found (p : MsgFilterParser) (n f v : Str)
    (pre : List MsgFilterRule) (r : MsgFilterRule) (post : List MsgFilterRule)
    (hsplit : p.rules = pre ++ r :: post) (hpre : ∀ x ∈ pre, x.name ≠ n)
    (hr : r.name = n) :
    add_condition_to_rule p n f v
      = (true, { p with rules :=
          pre ++ { r with condition := addCondLogic r.condition f v } :: post }) := by
  unfold add_condition_to_rule
  rw [hsplit, addCondList_found n f v pre r post hpre hr]

lemma add_condition_contained (p : MsgFilterParser) (n f v : Str)
    (pre : List MsgFilterRule) (r : MsgFilterRule) (post : List MsgFilterRule)
    (hsplit : p.rules = pre ++ r :: post) (hpre : ∀ x ∈ pre, x.name ≠ n)
    (hr : r.name = n) (hsub : isSubstr (condTerm f v) r.condition = true) :
    add_condition_to_rule p n f v = (true, p) := by
  rw [add_condition_found p n f v pre r post hsplit hpre hr,
    addCondLogic_of_substr _ _ _ hsub]
  rw [show ({ r with condition := r.condition } : MsgFilterRule) = r from rfl,
    ← hsplit]

lemma find?_name_first (n : Str) :
    ∀ (pre : List MsgFilterRule) (r : MsgFilterRule) (post : List MsgFilterRule),
    (∀ x ∈ pre, x.name ≠ n) → r.name = n →
    List.find? (fun x => x.name == n) (pre ++ r :: post) = some r
  | [], r, post, _, hr => by
    rw [List.nil_append]
    exact List.find?_cons_of_pos post (by simpa using hr)
  | x :: pre, r, post, h, hr => by
    rw [List.cons_append,
      List.find?_cons_of_neg _ (by simpa using h x (List.mem_cons_self x pre))]
    exact find?_name_first n pre r post
      (fun y hy => h y (List.mem_cons_of_mem x hy)) hr

lemma find_rule_none (p : MsgFilterParser) (n : Str)
    (h : ∀ r ∈ p.rules, r.name ≠ n) : find_rule_by_name p n = none := by
  unfold find_rule_by_name
  rw [List.find?_eq_none]
  intro x hx
  simpa using h x hx

lemma find_rule_first (p : MsgFilterParser) (n : Str)
    (pre : List MsgFilterRule) (r : MsgFilterRule) (post : List MsgFilterRule)
    (hsplit : p.rules = pre ++ r :: post) (hpre : ∀ x ∈ pre, x.name ≠ n)
    (hr : r.name = n) : find_rule_by_name p n = some r := by
  unfold find_rule_by_name
  rw [hsplit]
  exact find?_name_first n pre r post hpre hr

/-! ### Skip behavior of the line parser -/

lemma applyKV_field_no_current (st : ParseState) (k v : Str)
    (h : st.current = none)
    (hk : k = "enabled".toList ∨ k = "type".toList ∨ k = "action".toList
      ∨ k = "actionValue".toList ∨ k = "condition".toList) :
    applyKV st k v = st := by
  obtain ⟨ver, log, cur, rls⟩ := st
  cases h
  rcases hk with rfl | rfl | rfl | rfl | rfl <;> rfl

lemma applyKV_unknown (st : ParseState) (k v : Str)
    (h1 : ¬(k = "version".toList)) (h2 : ¬(k = "logging".toList))
    (h3 : ¬(k = "name".toList)) (h4 : ¬(k = "enabled".toList))
    (h5 : ¬(k = "type".toList)) (h6 : ¬(k = "action".toList))
    (h7 : ¬(k = "actionValue".toList)) (h8 : ¬(k = "condition".toList)) :
    applyKV st k v = st := by
  obtain ⟨ver, log, cur, rls⟩ := st
  unfold applyKV
  rw [if_neg h1, if_neg h2, if_neg h3]
  cases cur with
  | none => rfl
  | some r =>
    dsimp only
    rw [if_neg h4, if_neg h5, if_neg h6, if_neg h7, if_neg h8]

lemma pyStripWith_eq_nil (p : Char → Bool) (l : Str)
    (h : ∀ c ∈ l, p c = true) : pyStripWith p l = [] := by
  unfold pyStripWith
  rw [List.dropWhile_eq_nil_iff.mpr h]
  rfl

lemma parseLineKV_none (line : Str) (h : splitFirstEq line = none) :
    parseLineKV line = none := by
  unfold parseLineKV
  rw [h]

lemma parseLineKV_some (line k0 v0 : Str)
    (h : splitFirstEq line = some (k0, v0)) :
    parseLineKV line = some (pyStrip k0, stripQuotes (pyStrip v0)) := by
  unfold parseLineKV
  rw [h]

lemma processLine_no_eq (st : ParseState) (l : Str) (h : '=' ∉ l) :
    processLine st l = st := by
  simp only [processLine]
  by_cases h0 : pyStrip l = []
  · rw [if_pos h0]
  · rw [if_neg h0]
    rw [parseLineKV_none (pyStrip l) (splitFirstEq_eq_none (pyStrip l)
      (fun hc => h (mem_of_mem_pyStripWith isPySpace l '=' hc)))]

lemma processLine_ws (st : ParseState) (l : Str)
    (h : ∀ c ∈ l, isPySpace c = true) : processLine st l = st := by
  simp only [processLine]
  rw [if_pos (show pyStrip l = [] from pyStripWith_eq_nil isPySpace l h)]

lemma splitFirstEq_ne_nil (l : Str) (k0 v0 : Str)
    (h : splitFirstEq l = some (k0, v0)) : l ≠ [] := by
  intro h0
  rw [h0] at h
  cases h

lemma processLine_unknown_key (st : ParseState) (l k0 v0 : Str)
    (hsplit : splitFirstEq (pyStrip l) = some (k0, v0))
    (h1 : ¬(pyStrip k0 = "version".toList)) (h2 : ¬(pyStrip k0 = "logging".toList))
    (h3 : ¬(pyStrip k0 = "name".toList)) (h4 : ¬(pyStrip k0 = "enabled".toList))
    (h5 : ¬(pyStrip k0 = "type".toList)) (h6 : ¬(pyStrip k0 = "action".toList))
    (h7 : ¬(pyStrip k0 = "actionValue".toList))
    (h8 : ¬(pyStrip k0 = "condition".toList)) :
    processLine st l = st := by
  simp only [processLine]
  rw [if_neg (splitFirstEq_ne_nil _ k0 v0 hsplit),
    parseLineKV_some _ k0 v0 hsplit]
  exact applyKV_unknown st _ _ h1 h2 h3 h4 h5 h6 h7 h8

lemma processLine_field_no_current (st : ParseState) (l k0 v0 : Str)
    (hsplit : splitFirstEq (pyStrip l) = some (k0, v0))
    (hcur : st.current = none)
    (hk : pyStrip k0 = "enabled".toList ∨ pyStrip k0 = "type".toList
      ∨ pyStrip k0 = "action".toList ∨ pyStrip k0 = "actionValue".toList
      ∨ pyStrip k0 = "condition".toList) :
    processLine st l = st := by
  simp only [processLine]
  rw [if_neg (splitFirstEq_ne_nil _ k0 v0 hsplit),
    parseLineKV_some _ k0 v0 hsplit]
  exact applyKV_field_no_current st _ _ hcur hk

/-! ### Claim theorems -/

/-- C1: Idempotent condition merge: for every document and every rule
name and (field, value) pair, calling `add_condition_to_rule` twice
with identical arguments returns exactly the same flag and document as
calling it once; and when the rule found by name already contains the
candidate term `(field,contains,value)` as an exact substring, the
call is a no-op that reports success. -/
theorem C1_idempotent_merge :
    (∀ (p : MsgFilterParser) (n f v : Str),
      add_condition_to_rule (add_condition_to_rule p n f v).2 n f v
        = add_condition_to_rule p n f v)
    ∧ (∀ (p : MsgFilterParser) (n f v : Str) (pre : List MsgFilterRule)
        (r : MsgFilterRule) (post : List MsgFilterRule),
        p.rules = pre ++ r :: post → (∀ x ∈ pre, x.name ≠ n) → r.name = n →
        isSubstr (condTerm f v) r.condition = true →
        add_condition_to_rule p n f v = (true, p)) :=
  ⟨fun p n f v => add_condition_idem p n f v,
   fun p n f v pre r post hsplit hpre hr hsub =>
     add_condition_contained p n f v pre r post hsplit hpre hr hsub⟩

/-- C1 witness: both parts of the idempotent-merge theorem evaluated
on a one-rule document. -/
theorem C1_idempotent_merge_witness :
    (add_condition_to_rule
      (add_condition_to_rule
        ⟨[], [], [⟨"W".toList, "yes".toList, "17".toList, "m".toList, [],
          "OR (from,contains,x)".toList⟩]⟩
        ("W".toList) ("to".toList) ("y".toList)).2
      ("W".toList) ("to".toList) ("y".toList)
      = add_condition_to_rule
        ⟨[], [], [⟨"W".toList, "yes".toList, "17".toList, "m".toList, [],
          "OR (from,contains,x)".toList⟩]⟩
        ("W".toList) ("to".toList) ("y".toList))
    ∧ add_condition_to_rule
        ⟨[], [], [⟨"W".toList, "yes".toList, "17".toList, "m".toList, [],
          "OR (from,contains,x)".toList⟩]⟩
        ("W".toList) ("from".toList) ("x".toList)
      = (true, ⟨[], [], [⟨"W".toList, "yes".toList, "17".toList, "m".toList, [],
          "OR (from,contains,x)".toList⟩]⟩) :=
  ⟨C1_idempotent_merge.1 _ ("W".toList) ("to".toList) ("y".toList),
   C1_idempotent_merge.2 _ ("W".toList) ("from".toList) ("x".toList)
     [] ⟨"W".toList, "yes".toList, "17".toList, "m".toList, [],
       "OR (from,contains,x)".toList⟩ []
     rfl (by simp) rfl (by decide)⟩

/-- C2 counterexample: a document whose rule name contains a newline
(but no double quote anywhere in any value) does not survive the round
trip, so the claim's hypothesis of quote-freedom alone is too weak. -/
theorem C2_roundtrip_counterexample :
    (∀ s ∈ ["a\nb".toList, "yes".toList, "17".toList, "m".toList, ([] : Str)],
      '"' ∉ s)
    ∧ parse_content (write_file ⟨[], [],
        [⟨"a\nb".toList, "yes".toList, "17".toList, "m".toList, [], []⟩]⟩)
      ≠ ⟨[], [], [⟨"a\nb".toList, "yes".toList, "17".toList, "m".toList, [], []⟩]⟩ := by
  decide

/-- C2 (amended): round-trip fidelity holds for every document none of
whose values (version, logging, and all six fields of every rule)
contains a double quote or a newline character. -/
theorem C2_roundtrip (p : MsgFilterParser) (hp : goodParser p) :
    parse_content (write_file p) = p :=
  parse_write_good p hp

/-- C2 witness: the round trip evaluated on a concrete document. -/
theorem C2_roundtrip_witness :
    goodParser ⟨"9".toList, "no".toList,
      [⟨"W".toList, "yes".toList, "17".toList, "Move to folder".toList,
        "F".toList, "OR (from,contains,a@b.com)".toList⟩]⟩
    ∧ parse_content (write_file ⟨"9".toList, "no".toList,
        [⟨"W".toList, "yes".toList, "17".toList, "Move to folder".toList,
          "F".toList, "OR (from,contains,a@b.com)".toList⟩]⟩)
      = ⟨"9".toList, "no".toList,
        [⟨"W".toList, "yes".toList, "17".toList, "Move to folder".toList,
          "F".toList, "OR (from,contains,a@b.com)".toList⟩]⟩ :=
  ⟨by decide, C2_roundtrip _ (by decide)⟩

/-- C3: Record-boundary parsing: a `name` line finalizes and appends
the currently open rule (if any) and opens a new rule with that name
and all other fields at defaults; at end of input an open rule is
finalized and appended without a trailing `name` line; and a rule
field key before the first `name` key is silently discarded. -/
theorem C3_record_boundaries :
    (∀ (st : ParseState) (v : Str), '"' ∉ v →
      processLine st (kvLine ("name".toList) v)
        = { st with rules := st.rules ++ st.current.toList
                    current := some (mkRule v) })
    ∧ (∀ (ls : List Str) (v : Str), '"' ∉ v →
      (parseLines (ls ++ [kvLine ("name".toList) v])).rules
        = ((ls.foldl processLine ⟨[], [], none, []⟩).rules
            ++ (ls.foldl processLine ⟨[], [], none, []⟩).current.toList)
          ++ [mkRule v])
    ∧ (∀ (st : ParseState) (k v : Str), st.current = none →
        (k = "enabled".toList ∨ k = "type".toList ∨ k = "action".toList
          ∨ k = "actionValue".toList ∨ k = "condition".toList) →
        '"' ∉ v → processLine st (kvLine k v) = st) := by
  refine ⟨fun st v hv => processLine_name st v hv, ?_, ?_⟩
  · intro ls v hv
    unfold parseLines
    rw [List.foldl_append, List.foldl_cons, List.foldl_nil,
      processLine_name _ _ hv]
    simp
  · intro st k v hcur hk hv
    rcases hk with rfl | rfl | rfl | rfl | rfl
    · rw [processLine_kvLine st _ v (by decide)
        (head_cond_of_all _ _ (by decide)) hv,
        show pyStrip ("enabled".toList) = "enabled".toList from by decide]
      exact applyKV_field_no_current st _ _ hcur (Or.inl rfl)
    · rw [processLine_kvLine st _ v (by decide)
        (head_cond_of_all _ _ (by decide)) hv,
        show pyStrip ("type".toList) = "type".toList from by decide]
      exact applyKV_field_no_current st _ _ hcur (Or.inr (Or.inl rfl))
    · rw [processLine_kvLine st _ v (by decide)
        (head_cond_of_all _ _ (by decide)) hv,
        show pyStrip ("action".toList) = "action".toList from by decide]
      exact applyKV_field_no_current st _ _ hcur (Or.inr (Or.inr (Or.inl rfl)))
    · rw [processLine_kvLine st _ v (by decide)
        (head_cond_of_all _ _ (by decide)) hv,
        show pyStrip ("actionValue".toList) = "actionValue".toList from by decide]
      exact applyKV_field_no_current st _ _ hcur
        (Or.inr (Or.inr (Or.inr (Or.inl rfl))))
    · rw [processLine_kvLine st _ v (by decide)
        (head_cond_of_all _ _ (by decide)) hv,
        show pyStrip ("condition".toList) = "condition".toList from by decide]
      exact applyKV_field_no_current st _ _ hcur
        (Or.inr (Or.inr (Or.inr (Or.inr rfl))))

/-- C3 witness: the three record-boundary behaviors evaluated on
concrete states and lines. -/
theorem C3_record_boundaries_witness :
    processLine ⟨[], [], some (mkRule ("A".toList)), []⟩
        (kvLine ("name".toList) ("B".toList))
      = ⟨[], [], some (mkRule ("B".toList)), [mkRule ("A".toList)]⟩
    ∧ (parseLines (["version=\"9\"".toList] ++ [kvLine ("name".toList) ("B".toList)])).rules
      = [mkRule ("B".toList)]
    ∧ processLine ⟨[], [], none, []⟩ (kvLine ("enabled".toList) ("no".toList))
      = ⟨[], [], none, []⟩ :=
  ⟨by
    rw [C3_record_boundaries.1 ⟨[], [], some (mkRule ("A".toList)), []⟩
      ("B".toList) (by decide)]
    rfl,
   by
    rw [C3_record_boundaries.2.1 ["version=\"9\"".toList] ("B".toList) (by decide)]
    decide,
   C3_record_boundaries.2.2 ⟨[], [], none, []⟩ ("enabled".toList) ("no".toList)
     rfl (Or.inl rfl) (by decide)⟩

/-- C4 counterexample: on the line `name=""a""` the code's value is
`a` (all surrounding quotes stripped), not the `"a"` that stripping
exactly one quote from each side would give, refuting the claim as
stated. -/
theorem C4_value_extraction_counterexample :
    parseLineKV ("name=\"\"a\"\"".toList)
      = some ("name".toList, "a".toList)
    ∧ "a".toList ≠ specOneQuoteValue ("\"\"a\"\"".toList)
    ∧ specOneQuoteValue ("\"\"a\"\"".toList) = "\"a\"".toList := by
  decide

/-- C4 (amended): for every line containing at least one `=`, the
parsed value is the substring after the first `=`, trimmed of
surrounding whitespace, and then with ALL leading and trailing literal
double-quote characters stripped. -/
theorem C4_value_extraction (pre post : Str) (h : '=' ∉ pre) :
    parseLineKV (pre ++ '=' :: post)
      = some (pyStrip pre, stripQuotes (pyStrip post)) := by
  unfold parseLineKV
  rw [splitFirstEq_append pre post h]

/-- C4 witness: the amended value-extraction theorem evaluated on a
concrete line. -/
theorem C4_value_extraction_witness :
    parseLineKV ("key".toList ++ '=' :: " \"\"a\"\" ".toList)
      = some (pyStrip ("key".toList), stripQuotes (pyStrip (" \"\"a\"\" ".toList)))
    ∧ stripQuotes (pyStrip (" \"\"a\"\" ".toList)) = "a".toList :=
  ⟨C4_value_extraction ("key".toList) (" \"\"a\"\" ".toList) (by decide),
   by decide⟩

/-- C5: Serialization format: `write_file` emits the `version` line
only if non-empty, then the `logging` line only if non-empty, then for
each rule in order the six lines `name, enabled, type, action,
actionValue, condition`, each `<key>="<value>"` with no escaping, with
every line followed by exactly one newline (no blank lines between
rule blocks, trailing newline at the end). -/
theorem C5_serialization_format (p : MsgFilterParser) :
    write_file p = linesText (specDocLines p) :=
  write_file_eq_linesText p

/-- C6: Find-or-create: `find_rule_by_name` returns `none` when no
rule carries the queried name and otherwise the first rule (in
sequence order) whose name matches exactly; `create_new_rule` builds
the rule with `enabled="yes"`, `type="17"`, `action="Move to folder"`,
the given action value and the single-term condition
`OR (field,contains,value)`, appends it in last position and returns it. -/
theorem C6_find_or_create :
    (∀ (p : MsgFilterParser) (n : Str), (∀ r ∈ p.rules, r.name ≠ n) →
      find_rule_by_name p n = none)
    ∧ (∀ (p : MsgFilterParser) (n : Str) (pre : List MsgFilterRule)
        (r : MsgFilterRule) (post : List MsgFilterRule),
        p.rules = pre ++ r :: post → (∀ x ∈ pre, x.name ≠ n) → r.name = n →
        find_rule_by_name p n = some r)
    ∧ (∀ (p : MsgFilterParser) (n f v av : Str),
        create_new_rule p n f v av
          = (⟨n, "yes".toList, "17".toList, "Move to folder".toList, av,
              "OR ".toList ++ condTerm f v⟩,
             { p with rules := p.rules
               ++ [⟨n, "yes".toList, "17".toList, "Move to folder".toList, av,
                    "OR ".toList ++ condTerm f v⟩] })) :=
  ⟨fun p n h => find_rule_none p n h,
   fun p n pre r post hsplit hpre hr => find_rule_first p n pre r post hsplit hpre hr,
   fun _ _ _ _ _ => rfl⟩

/-- C6 witness: lookup misses, first-match lookup and creation
evaluated on concrete documents. -/
theorem C6_find_or_create_witness :
    find_rule_by_name ⟨[], [], [mkRule ("A".toList)]⟩ ("N".toList) = none
    ∧ find_rule_by_name ⟨[], [], [mkRule ("A".toList), mkRule ("N".toList),
        ⟨"N".toList, "no".toList, "17".toList, "m".toList, [], []⟩]⟩ ("N".toList)
      = some (mkRule ("N".toList))
    ∧ create_new_rule ⟨[], [], []⟩ ("N".toList) ("from".toList) ("x".toList)
        ("F".toList)
      = (⟨"N".toList, "yes".toList, "17".toList, "Move to folder".toList,
          "F".toList, "OR ".toList ++ condTerm ("from".toList) ("x".toList)⟩,
         ⟨[], [], [⟨"N".toList, "yes".toList, "17".toList, "Move to folder".toList,
          "F".toList, "OR ".toList ++ condTerm ("from".toList) ("x".toList)⟩]⟩) :=
  ⟨C6_find_or_create.1 _ ("N".toList) (by decide),
   C6_find_or_create.2.1 _ ("N".toList) [mkRule ("A".toList)]
     (mkRule ("N".toList))
     [⟨"N".toList, "no".toList, "17".toList, "m".toList, [], []⟩]
     rfl (by decide) rfl,
   C6_find_or_create.2.2 _ ("N".toList) ("from".toList) ("x".toList) ("F".toList)⟩

/-- C7 counterexample: with (f1,v1) = (f2,v2) = (from,x) the second
call is a textual no-op, so the condition is the single term rather
than the two-term string the claim predicts for every pair of
arguments. -/
theorem C7_order_counterexample :
    ¬ (((add_condition_to_rule (add_condition_to_rule
        ⟨[], [], [⟨"W".toList, "yes".toList, "17".toList, "m".toList, [], []⟩]⟩
        ("W".toList) ("from".toList) ("x".toList)).2
        ("W".toList) ("from".toList) ("x".toList)).2).rules.map
          (fun r => r.condition)
      = ["OR (from,contains,x) OR (from,contains,x)".toList]) := by
  decide

/-- C7 (amended): calling `add_condition_to_rule` with (f1,v1) then
(f2,v2) on a rule whose condition is initially empty yields
`OR (f1,contains,v1) OR (f2,contains,v2)`, provided the term
`(f2,contains,v2)` does not already occur as a substring of
`OR (f1,contains,v1)`. -/
theorem C7_order_preservation (p : MsgFilterParser) (n f1 v1 f2 v2 : Str)
    (pre : List MsgFilterRule) (r : MsgFilterRule) (post : List MsgFilterRule)
    (hsplit : p.rules = pre ++ r :: post) (hpre : ∀ x ∈ pre, x.name ≠ n)
    (hr : r.name = n) (hc : r.condition = [])
    (hni : ¬ condTerm f2 v2 <:+: ("OR ".toList ++ condTerm f1 v1)) :
    ((add_condition_to_rule (add_condition_to_rule p n f1 v1).2 n f2 v2).2).rules
      = pre ++ { r with condition :=
          ("OR ".toList ++ condTerm f1 v1) ++ " OR ".toList ++ condTerm f2 v2 }
        :: post := by
  rw [add_condition_found p n f1 v1 pre r post hsplit hpre hr]
  dsimp only
  rw [hc, addCondLogic_nil]
  rw [add_condition_found _ n f2 v2 pre _ post rfl hpre
    (show ({ r with condition := "OR ".toList ++ condTerm f1 v1 }
      : MsgFilterRule).name = n from hr)]
  dsimp only
  rw [addCondLogic_not_contained _ f2 v2
    (by
      intro h0
      exact absurd (List.append_eq_nil.mp h0).1 (by decide))
    (by
      unfold isSubstr
      exact decide_eq_false hni)]

/-- C7 witness: order preservation evaluated with (from,x) then
(subject,y) on a one-rule document with empty condition. -/
theorem C7_order_preservation_witness :
    ((add_condition_to_rule (add_condition_to_rule
        ⟨[], [], [⟨"W".toList, "yes".toList, "17".toList, "m".toList, [], []⟩]⟩
        ("W".toList) ("from".toList) ("x".toList)).2
        ("W".toList) ("subject".toList) ("y".toList)).2).rules
      = [⟨"W".toList, "yes".toList, "17".toList, "m".toList, [],
          ("OR ".toList ++ condTerm ("from".toList) ("x".toList))
            ++ " OR ".toList ++ condTerm ("subject".toList) ("y".toList)⟩] :=
  C7_order_preservation
    ⟨[], [], [⟨"W".toList, "yes".toList, "17".toList, "m".toList, [], []⟩]⟩
    ("W".toList) ("from".toList) ("x".toList) ("subject".toList) ("y".toList)
    [] ⟨"W".toList, "yes".toList, "17".toList, "m".toList, [], []⟩ []
    rfl (by simp) rfl rfl (by decide)

/-- C8: RuleNotFound with atomicity: when no rule carries the given
name, `add_condition_to_rule` returns `false` (rather than raising)
and leaves the whole document — rule sequence, rule fields, global
scalars — unchanged. -/
theorem C8_rule_not_found (p : MsgFilterParser) (n f v : Str)
    (h : ∀ r ∈ p.rules, r.name ≠ n) :
    add_condition_to_rule p n f v = (false, p) :=
  add_condition_not_found p n f v h

/-- C8 witness: the failed merge evaluated on a concrete document. -/
theorem C8_rule_not_found_witness :
    add_condition_to_rule ⟨"9".toList, [], [mkRule ("A".toList)]⟩
      ("N".toList) ("from".toList) ("x".toList)
      = (false, ⟨"9".toList, [], [mkRule ("A".toList)]⟩) :=
  C8_rule_not_found ⟨"9".toList, [], [mkRule ("A".toList)]⟩
    ("N".toList) ("from".toList) ("x".toList) (by decide)

/-- C9: Parser totality: the parser is a total function on text (the
embedding returns a document for every input with no failure case),
and malformed lines are silently skipped: a line without `=`, a
whitespace-only line, a line with an unrecognized key, and a rule
field line arriving while no rule is open all leave the parse state
unchanged. -/
theorem C9_parser_totality :
    (∀ (st : ParseState) (l : Str), '=' ∉ l → processLine st l = st)
    ∧ (∀ (st : ParseState) (l : Str), (∀ c ∈ l, isPySpace c = true) →
        processLine st l = st)
    ∧ (∀ (st : ParseState) (l k0 v0 : Str),
        splitFirstEq (pyStrip l) = some (k0, v0) →
        ¬(pyStrip k0 = "version".toList) → ¬(pyStrip k0 = "logging".toList) →
        ¬(pyStrip k0 = "name".toList) → ¬(pyStrip k0 = "enabled".toList) →
        ¬(pyStrip k0 = "type".toList) → ¬(pyStrip k0 = "action".toList) →
        ¬(pyStrip k0 = "actionValue".toList) → ¬(pyStrip k0 = "condition".toList) →
        processLine st l = st)
    ∧ (∀ (st : ParseState) (l k0 v0 : Str),
        splitFirstEq (pyStrip l) = some (k0, v0) → st.current = none →
        (pyStrip k0 = "enabled".toList ∨ pyStrip k0 = "type".toList
          ∨ pyStrip k0 = "action".toList ∨ pyStrip k0 = "actionValue".toList
          ∨ pyStrip k0 = "condition".toList) →
        processLine st l = st) :=
  ⟨fun st l h => processLine_no_eq st l h,
   fun st l h => processLine_ws st l h,
   fun st l k0 v0 hs h1 h2 h3 h4 h5 h6 h7 h8 =>
     processLine_unknown_key st l k0 v0 hs h1 h2 h3 h4 h5 h6 h7 h8,
   fun st l k0 v0 hs hcur hk =>
     processLine_field_no_current st l k0 v0 hs hcur hk⟩

/-- C9 witness: the four silent-skip behaviors evaluated on concrete
lines. -/
theorem C9_parser_totality_witness :
    processLine ⟨[], [], none, []⟩ ("stray text".toList) = ⟨[], [], none, []⟩
    ∧ processLine ⟨[], [], none, []⟩ ("   ".toList) = ⟨[], [], none, []⟩
    ∧ processLine ⟨[], [], none, []⟩ ("foo=\"bar\"".toList) = ⟨[], [], none, []⟩
    ∧ processLine ⟨[], [], none, []⟩ ("enabled=\"no\"".toList) = ⟨[], [], none, []⟩ :=
  ⟨C9_parser_totality.1 _ ("stray text".toList) (by decide),
   C9_parser_totality.2.1 _ ("   ".toList) (by decide),
   C9_parser_totality.2.2.1 _ ("foo=\"bar\"".toList) ("foo".toList)
     ("\"bar\"".toList) (by decide) (by decide) (by decide) (by decide)
     (by decide) (by decide) (by decide) (by decide) (by decide),
   C9_parser_totality.2.2.2 _ ("enabled=\"no\"".toList) ("enabled".toList)
     ("\"no\"".toList) (by decide) rfl (Or.inl (by decide))⟩

/-- C10: Duplicate detection is purely textual: whenever the candidate
string `(field,contains,value)` occurs anywhere in the (non-empty)
condition of the rule found by name — even inside another term's value
rather than as a standalone term — `add_condition_to_rule` returns
success and leaves the document unchanged. -/
theorem C10_textual_duplicate (p : MsgFilterParser) (n f v : Str)
    (pre : List MsgFilterRule) (r : MsgFilterRule) (post : List MsgFilterRule)
    (hsplit : p.rules = pre ++ r :: post) (hpre : ∀ x ∈ pre, x.name ≠ n)
    (hr : r.name = n) (_hne : r.condition ≠ [])
    (hsub : isSubstr (condTerm f v) r.condition = true) :
    add_condition_to_rule p n f v = (true, p) :=
  add_condition_contained p n f v pre r post hsplit hpre hr hsub

/-- C10 witness: the term `(to,contains,x)` occurs only inside another
term's value, yet the merge is a successful no-op. -/
theorem C10_textual_duplicate_witness :
    add_condition_to_rule
      ⟨[], [], [⟨"W".toList, "yes".toList, "17".toList, "m".toList, [],
        "OR (from,contains,(to,contains,x))".toList⟩]⟩
      ("W".toList) ("to".toList) ("x".toList)
      = (true, ⟨[], [], [⟨"W".toList, "yes".toList, "17".toList, "m".toList, [],
        "OR (from,contains,(to,contains,x))".toList⟩]⟩) :=
  C10_textual_duplicate
    ⟨[], [], [⟨"W".toList, "yes".toList, "17".toList, "m".toList, [],
      "OR (from,contains,(to,contains,x))".toList⟩]⟩
    ("W".toList) ("to".toList) ("x".toList)
    [] ⟨"W".toList, "yes".toList, "17".toList, "m".toList, [],
      "OR (from,contains,(to,contains,x))".toList⟩ []
    rfl (by simp) rfl (by decide) (by decide)

end MsgFilter
